import Mathlib

/-!
# Verification of the Nova-Core realtime audio session controller

Shallow embedding of `src/services/liveApi.ts` (class `LiveClient`) and its
audio helper functions, together with proofs of the specification claims
C1–C10.

Conventions of the embedding:
* JS strings of bytes / base64 text are modelled as `List Nat` of character
  codes; transcript text is modelled as `List Char`.
* JS `number` audio sample values and clock times are modelled as `ℚ`
  (the claims under verification are exact arithmetic identities and
  inequalities, not rounding properties of binary floating point).
* Stateful methods become pure functions `state → state × trace of events`,
  where the event trace records the callback invocations and external
  actions the method performs, in program order.
-/

namespace NovaCore

/-! ## Base64 framing (`encode` / `decode`, liveApi.ts lines 20–37)

`encode` builds a binary string from the bytes and applies `btoa`;
`decode` applies `atob` and reads the character codes back.  We model both
ends directly on byte lists / base64 character-code lists, implementing the
standard base64 alphabet and `=` (code 61) padding that `btoa`/`atob` use. -/

/-- The base64 alphabet: sextet value (0–63) to character code. -/
def sextetToCode (n : Nat) : Nat :=
  if n < 26 then 65 + n          -- 'A'..'Z'
  else if n < 52 then 71 + n     -- 'a'..'z'  (97 + (n - 26))
  else if n < 62 then n - 4      -- '0'..'9'  (48 + (n - 52))
  else if n = 62 then 43         -- '+'
  else 47                        -- '/'

/-- Inverse of the base64 alphabet: character code back to sextet value. -/
def codeToSextet (c : Nat) : Nat :=
  if 65 ≤ c ∧ c ≤ 90 then c - 65
  else if 97 ≤ c ∧ c ≤ 122 then c - 71
  else if 48 ≤ c ∧ c ≤ 57 then c + 4
  else if c = 43 then 62
  else 63

/-- `encode` (liveApi.ts line 20): bytes to base64 character codes, as
`btoa` produces them (3 bytes → 4 characters, `=` = code 61 padding). -/
def b64encode : List Nat → List Nat
  | [] => []
  | [b1] =>
      [sextetToCode (b1 / 4), sextetToCode (b1 % 4 * 16), 61, 61]
  | [b1, b2] =>
      [sextetToCode (b1 / 4), sextetToCode (b1 % 4 * 16 + b2 / 16),
       sextetToCode (b2 % 16 * 4), 61]
  | b1 :: b2 :: b3 :: rest =>
      sextetToCode (b1 / 4) ::
      sextetToCode (b1 % 4 * 16 + b2 / 16) ::
      sextetToCode (b2 % 16 * 4 + b3 / 64) ::
      sextetToCode (b3 % 64) ::
      b64encode rest

/-- `decode` (liveApi.ts line 29): base64 character codes back to bytes, as
`atob` computes them (4 characters → 3 bytes, fewer at `=` padding). -/
def b64decode : List Nat → List Nat
  | c1 :: c2 :: c3 :: c4 :: rest =>
      if c3 = 61 then
        [codeToSextet c1 * 4 + codeToSextet c2 / 16]
      else if c4 = 61 then
        [codeToSextet c1 * 4 + codeToSextet c2 / 16,
         codeToSextet c2 % 16 * 16 + codeToSextet c3 / 4]
      else
        (codeToSextet c1 * 4 + codeToSextet c2 / 16) ::
        (codeToSextet c2 % 16 * 16 + codeToSextet c3 / 4) ::
        ((codeToSextet c3 % 4 * 64 + codeToSextet c4) ::
        b64decode rest)
  | _ => []

lemma codeToSextet_sextetToCode {n : Nat} (h : n < 64) :
    codeToSextet (sextetToCode n) = n := by
  interval_cases n <;> rfl

lemma sextetToCode_ne_pad {n : Nat} (h : n < 64) : sextetToCode n ≠ 61 := by
  interval_cases n <;> decide

lemma sextetToCode_lt {n : Nat} (h : n < 64) : sextetToCode n < 256 := by
  interval_cases n <;> decide

/-- Round trip: `atob` of `btoa` restores every byte sequence. -/
theorem b64decode_b64encode :
    ∀ (bytes : List Nat), (∀ b ∈ bytes, b < 256) →
      b64decode (b64encode bytes) = bytes := by
  intro bytes
  induction bytes using b64encode.induct with
  | case1 => intro _; rfl
  | case2 b1 =>
      intro h
      have hb1 : b1 < 256 := h b1 (by simp)
      have h1 : b1 / 4 < 64 := by omega
      have h2 : b1 % 4 * 16 < 64 := by omega
      show b64decode [sextetToCode (b1 / 4), sextetToCode (b1 % 4 * 16), 61, 61]
        = [b1]
      rw [b64decode, if_pos rfl, codeToSextet_sextetToCode h1,
        codeToSextet_sextetToCode h2]
      simp only [List.cons.injEq, and_true]
      omega
  | case3 b1 b2 =>
      intro h
      have hb1 : b1 < 256 := h b1 (by simp)
      have hb2 : b2 < 256 := h b2 (by simp)
      have h1 : b1 / 4 < 64 := by omega
      have h2 : b1 % 4 * 16 + b2 / 16 < 64 := by omega
      have h3 : b2 % 16 * 4 < 64 := by omega
      show b64decode [sextetToCode (b1 / 4), sextetToCode (b1 % 4 * 16 + b2 / 16),
        sextetToCode (b2 % 16 * 4), 61] = [b1, b2]
      rw [b64decode, if_neg (sextetToCode_ne_pad h3), if_pos rfl,
        codeToSextet_sextetToCode h1, codeToSextet_sextetToCode h2,
        codeToSextet_sextetToCode h3]
      simp only [List.cons.injEq, and_true]
      omega
  | case4 b1 b2 b3 rest ih =>
      intro h
      have hb1 : b1 < 256 := h b1 (by simp)
      have hb2 : b2 < 256 := h b2 (by simp)
      have hb3 : b3 < 256 := h b3 (by simp)
      have h1 : b1 / 4 < 64 := by omega
      have h2 : b1 % 4 * 16 + b2 / 16 < 64 := by omega
      have h3 : b2 % 16 * 4 + b3 / 64 < 64 := by omega
      have h4 : b3 % 64 < 64 := by omega
      have hrest : ∀ b ∈ rest, b < 256 := fun b hb => h b (by simp [hb])
      show b64decode (sextetToCode (b1 / 4) ::
        sextetToCode (b1 % 4 * 16 + b2 / 16) ::
        sextetToCode (b2 % 16 * 4 + b3 / 64) ::
        sextetToCode (b3 % 64) :: b64encode rest) = b1 :: b2 :: b3 :: rest
      rw [b64decode, if_neg (sextetToCode_ne_pad h3),
        if_neg (sextetToCode_ne_pad h4),
        codeToSextet_sextetToCode h1, codeToSextet_sextetToCode h2,
        codeToSextet_sextetToCode h3, codeToSextet_sextetToCode h4, ih hrest]
      simp only [List.cons.injEq, and_true]
      refine ⟨by omega, by omega, by omega⟩

/-! ## PCM sample conversion (`createBlob` / `decodeAudioData`, lines 39–68)

`createBlob` writes `data[i] * 32768` into an `Int16Array`.  A JS
`Int16Array` store truncates the number toward zero and then reduces it
modulo 2^16 into the signed 16-bit range (`ToInt16`): values wrap, they are
not clamped.  The `Uint8Array` view of the `Int16Array` buffer yields the
little-endian byte pairs. -/

/-- Truncation toward zero of a rational, as JS `ToIntegerOrInfinity`
truncates a number being stored into an integer-typed array
(`Int.tdiv` is the truncating division; see `truncQ_eq_floor_or_ceil`). -/
def truncQ (x : ℚ) : ℤ := x.num.tdiv x.den

/-- The value an `Int16Array` element holds after `int16[i] = x` for a
number `x`: truncate toward zero, wrap modulo 2^16 into [-32768, 32768). -/
def toInt16 (x : ℚ) : ℤ :=
  let w := truncQ x % 65536
  if w < 32768 then w else w - 65536

/-- Little-endian byte pair of a signed 16-bit value, as a `Uint8Array`
view of the `Int16Array` buffer exposes it. -/
def int16ToLEBytes (v : ℤ) : List Nat :=
  let u := (v % 65536).toNat
  [u % 256, u / 256]

/-- `createBlob` (liveApi.ts line 58): multiply each float sample by 32768,
store as 16-bit signed little-endian PCM, base64-encode, and label with
MIME type `audio/pcm;rate=16000`. -/
def createBlob (data : List ℚ) : List Nat × String :=
  let int16 := data.map fun x => toInt16 (x * 32768)
  (b64encode (int16.flatMap int16ToLEBytes), "audio/pcm;rate=16000")

/-- Reinterpret a byte list as 16-bit signed little-endian values, as
`new Int16Array(data.buffer)` does in `decodeAudioData`. -/
def bytesToInt16 : List Nat → List ℤ
  | b0 :: b1 :: rest =>
      (let u := b0 + 256 * b1
       if u < 32768 then (u : ℤ) else (u : ℤ) - 65536) :: bytesToInt16 rest
  | _ => []

/-- `decodeAudioData` (liveApi.ts line 39): deinterleave the 16-bit PCM into
`numChannels` channels of `frameCount = dataInt16.length / numChannels`
samples each, dividing every signed 16-bit value by 32768.  (The sample
rate only parametrises the created `AudioBuffer`; the sample values are
what this function computes.) -/
def decodeAudioData (data : List Nat) (numChannels : Nat) : List (List ℚ) :=
  let dataInt16 := bytesToInt16 data
  let frameCount := dataInt16.length / numChannels
  (List.range numChannels).map fun channel =>
    (List.range frameCount).map fun i =>
      ((dataInt16.getD (i * numChannels + channel) 0 : ℚ)) / 32768

/-- `truncQ` is truncation toward zero: floor for nonnegative arguments,
ceiling for negative ones. -/
lemma truncQ_eq_floor_or_ceil (x : ℚ) :
    truncQ x = if 0 ≤ x then ⌊x⌋ else ⌈x⌉ := by
  unfold truncQ
  split
  case isTrue h =>
    have hnum : 0 ≤ x.num := Rat.num_nonneg.mpr h
    rw [Int.tdiv_eq_ediv hnum (Int.ofNat_zero_le _),
      ← Rat.floor_intCast_div_natCast x.num x.den, Rat.num_div_den]
  case isFalse h =>
    have hnum : x.num < 0 := by
      by_contra hn
      push_neg at hn
      exact h (Rat.num_nonneg.mp hn)
    have h1 : x.num.tdiv (x.den : ℤ) = -((-x.num).tdiv (x.den : ℤ)) := by
      rw [← Int.neg_tdiv, Int.neg_neg]
    have h3 : (-x.num) / (x.den : ℤ) = ⌊-x⌋ := by
      rw [← Rat.floor_intCast_div_natCast (-x.num) x.den]
      congr 1
      push_cast
      rw [neg_div, Rat.num_div_den]
    rw [h1, Int.tdiv_eq_ediv (by omega) (Int.ofNat_zero_le _), h3, Int.floor_neg,
      neg_neg]

lemma truncQ_intCast (v : ℤ) : truncQ (v : ℚ) = v := by
  unfold truncQ
  rw [Rat.num_intCast]
  have hden : ((v : ℚ).den : ℤ) = 1 := by
    rw [Rat.den_intCast]
    rfl
  rw [hden, Int.tdiv_one]

lemma toInt16_exact {v : ℤ} (h1 : -32768 ≤ v) (h2 : v < 32768) :
    toInt16 ((v : ℚ) / 32768 * 32768) = v := by
  have hne : (32768 : ℚ) ≠ 0 := by norm_num
  rw [div_mul_cancel₀ _ hne]
  unfold toInt16
  rw [truncQ_intCast]
  have hmod := Int.emod_nonneg v (show (65536 : ℤ) ≠ 0 by norm_num)
  have hlt := Int.emod_lt_of_pos v (show (0 : ℤ) < 65536 by norm_num)
  simp only []
  omega

lemma bytesToInt16_leBytes {v : ℤ} (h1 : -32768 ≤ v) (h2 : v < 32768)
    (rest : List Nat) :
    bytesToInt16 (int16ToLEBytes v ++ rest) = v :: bytesToInt16 rest := by
  unfold int16ToLEBytes
  have hmod := Int.emod_nonneg v (show (65536 : ℤ) ≠ 0 by norm_num)
  have hlt := Int.emod_lt_of_pos v (show (0 : ℤ) < 65536 by norm_num)
  have hu : ((v % 65536).toNat : ℤ) = v % 65536 := Int.toNat_of_nonneg hmod
  simp only [List.cons_append, List.nil_append, bytesToInt16, List.cons.injEq]
  constructor
  · omega
  · rfl

lemma leBytes_lt (v : ℤ) : ∀ b ∈ int16ToLEBytes v, b < 256 := by
  unfold int16ToLEBytes
  have hmod := Int.emod_nonneg v (show (65536 : ℤ) ≠ 0 by norm_num)
  have hlt := Int.emod_lt_of_pos v (show (0 : ℤ) < 65536 by norm_num)
  intro b hb
  simp only [List.mem_cons, List.not_mem_nil, or_false] at hb
  rcases hb with h | h <;> omega

lemma bytesToInt16_flatMap (vs : List ℤ)
    (h : ∀ v ∈ vs, -32768 ≤ v ∧ v < 32768) :
    bytesToInt16 (vs.flatMap int16ToLEBytes) = vs := by
  induction vs with
  | nil => rfl
  | cons v vs ih =>
      have hv := h v (by simp)
      rw [List.flatMap_cons, bytesToInt16_leBytes hv.1 hv.2,
        ih fun w hw => h w (by simp [hw])]

lemma flatMap_leBytes_lt (vs : List ℤ) :
    ∀ b ∈ vs.flatMap int16ToLEBytes, b < 256 := by
  intro b hb
  rw [List.mem_flatMap] at hb
  obtain ⟨v, _, hbv⟩ := hb
  exact leBytes_lt v b hbv

lemma range_map_getD (f : ℤ → ℚ) :
    ∀ (l : List ℤ), (List.range l.length).map (fun i => f (l.getD i 0)) = l.map f := by
  intro l
  induction l with
  | nil => rfl
  | cons a l ih =>
      have htail : (List.range l.length).map
          ((fun i => f ((a :: l).getD i 0)) ∘ Nat.succ) = l.map f := by
        rw [← ih]
        apply List.map_congr_left
        intro i _
        rfl
      rw [List.length_cons, List.range_succ_eq_map, List.map_cons, List.map_map,
        htail]
      rfl

/-- Mono decode is the per-sample division by 32768. -/
lemma decodeAudioData_mono (data : List Nat) :
    decodeAudioData data 1
      = [(bytesToInt16 data).map (fun v : ℤ => (v : ℚ) / 32768)] := by
  unfold decodeAudioData
  simp only [show List.range 1 = [0] from rfl, List.map_cons, List.map_nil,
    Nat.div_one, Nat.mul_one, Nat.add_zero, List.cons.injEq, and_true]
  exact range_map_getD (fun v : ℤ => (v : ℚ) / 32768) (bytesToInt16 data)

lemma toInt16_one_mul : toInt16 ((1 : ℚ) * 32768) = -32768 := by
  have h : (1 : ℚ) * 32768 = ((32768 : ℤ) : ℚ) := by norm_num
  simp only [toInt16, h, truncQ_intCast]
  decide

lemma toInt16_three_half_mul : toInt16 ((3 / 2 : ℚ) * 32768) = -16384 := by
  have h : (3 / 2 : ℚ) * 32768 = ((49152 : ℤ) : ℚ) := by norm_num
  simp only [toInt16, h, truncQ_intCast]
  decide

/-- C9.  Wire codec round trip and normalization: decoding the base64
framing of any byte sequence restores it; outbound blocks carry the MIME
label `audio/pcm;rate=16000`; and the outbound sample path (×32768 into
signed 16-bit little-endian PCM, base64) composed with the inbound path
(base64 decode, 16-bit reinterpretation, ÷32768) restores every exactly
representable sample sequence. -/
theorem C9_wire_codec_round_trip :
    (∀ bytes : List Nat, (∀ b ∈ bytes, b < 256) →
        b64decode (b64encode bytes) = bytes)
    ∧ (∀ data : List ℚ, (createBlob data).2 = "audio/pcm;rate=16000")
    ∧ (∀ vs : List ℤ, (∀ v ∈ vs, -32768 ≤ v ∧ v < 32768) →
        decodeAudioData
            (b64decode (createBlob (vs.map fun v : ℤ => (v : ℚ) / 32768)).1) 1
          = [vs.map fun v : ℤ => (v : ℚ) / 32768]) := by
  refine ⟨b64decode_b64encode, fun _ => rfl, fun vs h => ?_⟩
  have hmap : (vs.map fun v : ℤ => (v : ℚ) / 32768).map
      (fun x => toInt16 (x * 32768)) = vs := by
    rw [List.map_map]
    have hpt : ∀ v ∈ vs,
        ((fun x => toInt16 (x * 32768)) ∘ fun v : ℤ => (v : ℚ) / 32768) v
          = id v :=
      fun v hv => toInt16_exact (h v hv).1 (h v hv).2
    rw [List.map_congr_left hpt, List.map_id]
  have hblob : (createBlob (vs.map fun v : ℤ => (v : ℚ) / 32768)).1
      = b64encode (vs.flatMap int16ToLEBytes) := by
    simp only [createBlob, hmap]
  rw [hblob, b64decode_b64encode _ (flatMap_leBytes_lt vs),
    decodeAudioData_mono, bytesToInt16_flatMap vs h]

/-- Witness for C9 at concrete inputs. -/
theorem C9_wire_codec_round_trip_witness :
    ((∀ b ∈ [104, 105, 33], b < 256)
      ∧ b64decode (b64encode [104, 105, 33]) = [104, 105, 33])
    ∧ ((∀ v ∈ [(16384 : ℤ), -16384], -32768 ≤ v ∧ v < 32768)
      ∧ decodeAudioData
          (b64decode
            (createBlob ([(16384 : ℤ), -16384].map fun v : ℤ => (v : ℚ) / 32768)).1) 1
        = [[(16384 : ℤ), -16384].map fun v : ℤ => (v : ℚ) / 32768]) :=
  ⟨⟨by decide, C9_wire_codec_round_trip.1 [104, 105, 33] (by decide)⟩,
   ⟨by decide, C9_wire_codec_round_trip.2.2 [(16384 : ℤ), -16384] (by decide)⟩⟩

/-- C10.  Outbound sample conversion wraps instead of clamping: the encoded
16-bit value is the truncation of `x * 32768` reduced modulo 2^16 into the
signed 16-bit range; a full-scale sample of exactly 1.0 encodes as -32768
(and 1.5 as -16384, not a saturated 32767), and `createBlob [1]` emits the
little-endian bytes of -32768. -/
theorem C10_outbound_wraps_not_clamps :
    toInt16 ((1 : ℚ) * 32768) = -32768
    ∧ toInt16 ((3 / 2 : ℚ) * 32768) = -16384
    ∧ (∀ x : ℚ, -32768 ≤ toInt16 (x * 32768) ∧ toInt16 (x * 32768) < 32768
        ∧ toInt16 (x * 32768) % 65536 = truncQ (x * 32768) % 65536)
    ∧ (createBlob [1]).1 = [65, 73, 65, 61] := by
  refine ⟨toInt16_one_mul, toInt16_three_half_mul, fun x => ?_, ?_⟩
  · have hmod := Int.emod_nonneg (truncQ (x * 32768))
      (show (65536 : ℤ) ≠ 0 by norm_num)
    have hlt := Int.emod_lt_of_pos (truncQ (x * 32768))
      (show (0 : ℤ) < 65536 by norm_num)
    unfold toInt16
    refine ⟨?_, ?_, ?_⟩ <;> (simp only []; split <;> omega)
  · simp only [createBlob, List.map_cons, List.map_nil, toInt16_one_mul]
    decide

/-! ## Status state machine (`setStatus`, liveApi.ts lines 127–131) -/

/-- The `AgentStatus` union type (src/unnamed types module). -/
inductive AgentStatus
  | idle
  | connecting
  | listening
  | processing
  | speaking
  | error
deriving DecidableEq, Repr

/-- `setStatus` (liveApi.ts line 127): the requested status is dropped when
the current status is `error` and the request is neither `idle` nor
`connecting`; otherwise the status is updated and the status-change
callback fires.  Returns (new status, whether the callback fired). -/
def setStatusFn (cur target : AgentStatus) : AgentStatus × Bool :=
  if cur = AgentStatus.error ∧ target ≠ AgentStatus.idle
      ∧ target ≠ AgentStatus.connecting then
    (cur, false)
  else
    (target, true)

/-- A sequence of `setStatus` requests: final status and the list of
statuses handed to the status-change callback, in order. -/
def runSetStatus : AgentStatus → List AgentStatus → AgentStatus × List AgentStatus
  | cur, [] => (cur, [])
  | cur, r :: rest =>
      let p := setStatusFn cur r
      let q := runSetStatus p.1 rest
      (q.1, (if p.2 then [p.1] else []) ++ q.2)

/-- C3.  Error latch invariant: from `error`, any sequence of requests for
`listening` / `speaking` / `processing` (anything but `idle` and
`connecting`) leaves the status `error` and fires no status-change
callback; a request for `idle` or `connecting` does change the status and
fires the callback. -/
theorem C3_error_latch :
    (∀ reqs : List AgentStatus,
        (∀ r ∈ reqs, r ≠ AgentStatus.idle ∧ r ≠ AgentStatus.connecting) →
        runSetStatus AgentStatus.error reqs = (AgentStatus.error, []))
    ∧ setStatusFn AgentStatus.error AgentStatus.idle = (AgentStatus.idle, true)
    ∧ setStatusFn AgentStatus.error AgentStatus.connecting
        = (AgentStatus.connecting, true) := by
  refine ⟨fun reqs h => ?_, by decide, by decide⟩
  induction reqs with
  | nil => rfl
  | cons r rest ih =>
      have hr := h r (by simp)
      have hrest := ih fun r hr => h r (by simp [hr])
      rw [runSetStatus]
      rw [show setStatusFn AgentStatus.error r = (AgentStatus.error, false) by
        unfold setStatusFn
        rw [if_pos ⟨rfl, hr.1, hr.2⟩]]
      simp [hrest]

/-- Witness for C3: `listening`, `speaking`, `processing` requested in a
row while in `error` — status stays `error`, no callback fires. -/
theorem C3_error_latch_witness :
    (∀ r ∈ [AgentStatus.listening, AgentStatus.speaking, AgentStatus.processing],
        r ≠ AgentStatus.idle ∧ r ≠ AgentStatus.connecting)
    ∧ runSetStatus AgentStatus.error
        [AgentStatus.listening, AgentStatus.speaking, AgentStatus.processing]
        = (AgentStatus.error, []) :=
  ⟨by decide,
   C3_error_latch.1
     [AgentStatus.listening, AgentStatus.speaking, AgentStatus.processing]
     (by decide)⟩

/-! ## Connection retry (`connectWithRetry`, liveApi.ts lines 186–229)

`connectWithRetry(retries = 3)` attempts `ai.live.connect(...)`; when the
attempt throws an error whose message includes "unavailable" (or whose
status is 503) and retries remain, it sleeps 1500 ms and recurses with
`retries - 1`; any other error — or exhaustion — is rethrown.  We model the
environment as a function from the attempt index to that attempt's
outcome, and return the list of backoff waits (in milliseconds) together
with whether a session was obtained. -/

/-- Outcome of one `ai.live.connect` attempt. -/
inductive AttemptOutcome
  | ok               -- the connect promise resolves
  | failUnavailable  -- rejects with a transient "service unavailable" signal
  | failOther        -- rejects with any other error
deriving DecidableEq, Repr

/-- `connectWithRetry` over an environment `att` of attempt outcomes,
starting at attempt index `idx` with `retries` retries left: the backoff
waits performed (each 1500 ms) and whether the connection succeeded
(`false` = the final error propagates to `connect`'s catch). -/
def connectWithRetry (att : Nat → AttemptOutcome) : Nat → Nat → List ℚ × Bool
  | idx, 0 =>
    match att idx with
    | AttemptOutcome.ok => ([], true)
    | AttemptOutcome.failUnavailable => ([], false)   -- retries exhausted: throw
    | AttemptOutcome.failOther => ([], false)
  | idx, r + 1 =>
    match att idx with
    | AttemptOutcome.ok => ([], true)
    | AttemptOutcome.failUnavailable =>
        let p := connectWithRetry att (idx + 1) r     -- wait 1.5 s, retry
        (1500 :: p.1, p.2)
    | AttemptOutcome.failOther => ([], false)         -- rethrow immediately

/-- The status `connect()` ends in (liveApi.ts lines 231–241): the `onopen`
callback sets `listening` on success; the surrounding catch sets `error`
when `connectWithRetry`'s promise rejects. -/
def connectFinalStatus (att : Nat → AttemptOutcome) : AgentStatus :=
  if (connectWithRetry att 0 3).2 then
    (setStatusFn AgentStatus.connecting AgentStatus.listening).1
  else
    (setStatusFn AgentStatus.connecting AgentStatus.error).1

/-- Environment with transient failures on the first `n` attempts and
success afterwards. -/
def unavailableThenOk (n : Nat) : Nat → AttemptOutcome :=
  fun k => if k < n then AttemptOutcome.failUnavailable else AttemptOutcome.ok

/-- C2.  Retry bound and outcome of connect(): three consecutive "service
unavailable" failures followed by a success give a successful connect after
exactly three 1500 ms backoff waits; four consecutive such failures exhaust
the 3 retries (again after three waits) and connect ends in status `error`;
any other failure propagates immediately with no backoff wait. -/
theorem C2_retry_bound :
    connectWithRetry (unavailableThenOk 3) 0 3 = ([1500, 1500, 1500], true)
    ∧ connectFinalStatus (unavailableThenOk 3) = AgentStatus.listening
    ∧ connectWithRetry (unavailableThenOk 4) 0 3 = ([1500, 1500, 1500], false)
    ∧ connectFinalStatus (unavailableThenOk 4) = AgentStatus.error
    ∧ (∀ (att : Nat → AttemptOutcome) (idx retries : Nat),
        att idx = AttemptOutcome.failOther →
        connectWithRetry att idx retries = ([], false)) := by
  refine ⟨by decide, by decide, by decide, by decide,
    fun att idx retries h => ?_⟩
  cases retries <;> simp [connectWithRetry, h]

/-- Witness for C2's propagation clause: a non-transient first failure is
not retried. -/
theorem C2_retry_bound_witness :
    (fun _ => AttemptOutcome.failOther) 0 = AttemptOutcome.failOther
    ∧ connectWithRetry (fun _ => AttemptOutcome.failOther) 0 3 = ([], false) :=
  ⟨rfl, C2_retry_bound.2.2.2.2 (fun _ => AttemptOutcome.failOther) 0 3 rfl⟩

/-! ## Controller state and inbound message handling
(`handleMessage`, liveApi.ts lines 297–368)

The mutable fields of `LiveClient` are gathered into `LiveState`.
Resource handles (session promise, recorder, stream, nodes, contexts) are
modelled by presence / state flags, playback segments by their scheduled
start time and duration.  The observer callbacks (`onStatusChange`,
`onTranscript`, `onLeadUpdate`, …) are modelled as registered: a method's
emitted `Event` list records the callback invocations and session sends in
program order. -/

/-- An `AudioContext`'s lifecycle state. -/
inductive CtxState
  | running
  | suspended
  | closed
deriving DecidableEq, Repr

/-- A scheduled playback segment (`AudioBufferSourceNode` in `sources`):
its scheduled start time and buffer duration, in seconds of the output
clock. -/
structure Segment where
  start : ℚ
  dur : ℚ
deriving DecidableEq, Repr

/-- The mutable state of a `LiveClient` (liveApi.ts lines 87–110). -/
structure LiveState where
  currentStatus : AgentStatus
  sources : List Segment
  nextStartTime : ℚ
  currentInputTranscription : List Char
  currentOutputTranscription : List Char
  lastUserInteraction : ℚ
  hasSpokenOnce : Bool
  sessionPromiseSome : Bool      -- `sessionPromise` is non-null
  sessionResolves : Bool         -- … and resolves to a session (vs. rejects)
  mediaRecorder : Option Bool    -- none = null; some b, b = state is not inactive
  audioChunks : List Nat         -- sizes of the recorded data chunks
  outputVolumeInterval : Bool    -- the periodic volume-sampling timer is set
  stream : Bool                  -- the microphone MediaStream is held
  inputNode : Bool               -- the capture ScriptProcessorNode is wired
  inputAudioContext : Option CtxState
  outputAudioContext : Option CtxState
  outputNode : Bool              -- the output GainNode exists
deriving DecidableEq, Repr

/-- A fresh `LiveClient`'s state: everything null / empty, status `idle`. -/
def initState : LiveState where
  currentStatus := AgentStatus.idle
  sources := []
  nextStartTime := 0
  currentInputTranscription := []
  currentOutputTranscription := []
  lastUserInteraction := 0
  hasSpokenOnce := false
  sessionPromiseSome := false
  sessionResolves := false
  mediaRecorder := none
  audioChunks := []
  outputVolumeInterval := false
  stream := false
  inputNode := false
  inputAudioContext := none
  outputAudioContext := none
  outputNode := false

/-- Speaker role attached to a flushed transcript. -/
inductive Role
  | user
  | model
deriving DecidableEq, Repr

/-- Externally observable actions of the message handler, in program
order: callback invocations and sends on the session. -/
inductive Event
  | statusChanged (st : AgentStatus)            -- onStatusChange(st)
  | leadUpdate (args : List (String × String))  -- onLeadUpdate(fc.args)
  | toolResponse (id name : String)             -- session.sendToolResponse
  | transcript (text : List Char) (role : Role) -- onTranscript(text, role)
  | playStarted (start dur : ℚ)                 -- source.start(start)
deriving DecidableEq, Repr

/-- A function call inside a message's `toolCall`. -/
structure FunctionCall where
  name : String
  id : String
  args : List (String × String)   -- opaque key/value argument object
deriving DecidableEq, Repr

/-- The `serverContent` part of an inbound message.  `none` / `[]` fields
are JS `undefined` / empty (falsy) values. -/
structure ServerContent where
  outputTranscriptionText : Option (List Char)
  inputTranscriptionText : Option (List Char)
  turnComplete : Bool
  modelTurnAudioData : Option (List Nat)  -- base64 codes of parts[0].inlineData.data
  interrupted : Bool
deriving DecidableEq, Repr

/-- An inbound `LiveServerMessage`. -/
structure LiveServerMessage where
  toolCall : Option (List FunctionCall)
  serverContent : Option ServerContent
deriving DecidableEq, Repr

/-- The output-transcription fragment a message carries (empty when absent
or falsy). -/
def LiveServerMessage.outFrag (m : LiveServerMessage) : List Char :=
  match m.serverContent with
  | some sc => sc.outputTranscriptionText.getD []
  | none => []

/-- The input-transcription fragment a message carries. -/
def LiveServerMessage.inFrag (m : LiveServerMessage) : List Char :=
  match m.serverContent with
  | some sc => sc.inputTranscriptionText.getD []
  | none => []

/-- Whether the message carries a (truthy) turn-complete signal. -/
def LiveServerMessage.turnCompleteB (m : LiveServerMessage) : Bool :=
  match m.serverContent with
  | some sc => sc.turnComplete
  | none => false

/-- The base64 audio payload (empty = absent or falsy). -/
def LiveServerMessage.audioB64 (m : LiveServerMessage) : List Nat :=
  match m.serverContent with
  | some sc => sc.modelTurnAudioData.getD []
  | none => []

/-- Whether the message carries a (truthy) interruption signal. -/
def LiveServerMessage.interruptedB (m : LiveServerMessage) : Bool :=
  match m.serverContent with
  | some sc => sc.interrupted
  | none => false

/-- JS `String.prototype.trim` on our character-list texts. -/
def jsTrim (l : List Char) : List Char :=
  ((l.dropWhile Char.isWhitespace).reverse.dropWhile Char.isWhitespace).reverse

/-- `setStatus` applied to a state, with the fired callback as events. -/
def applySetStatus (s : LiveState) (target : AgentStatus) :
    LiveState × List Event :=
  let r := setStatusFn s.currentStatus target
  ({ s with currentStatus := r.1 }, if r.2 then [Event.statusChanged r.1] else [])

/-- Tool-call processing (liveApi.ts lines 298–315): each function call
named "update_lead" forwards its argument object to the lead-update
callback and then sends a success tool-response tagged with the call's id
and name (the send goes through `sessionPromise?.then`, so it happens only
when the session promise is present). -/
def hmToolEvents (s : LiveState) (m : LiveServerMessage) : List Event :=
  match m.toolCall with
  | none => []
  | some fcs =>
      fcs.flatMap fun fc =>
        if fc.name = "update_lead" then
          Event.leadUpdate fc.args ::
            (if s.sessionPromiseSome then [Event.toolResponse fc.id fc.name]
             else [])
        else []

/-- Transcript accumulation and turn-complete flush (liveApi.ts lines
317–333): fragments are appended to the accumulators; on `turnComplete`,
each accumulator whose text trims non-empty is flushed (input first, role
`user`; then output, role `model`) and reset. -/
def hmTranscriptPhase (s : LiveState) (m : LiveServerMessage) :
    LiveState × List Event :=
  let cin := s.currentInputTranscription ++ m.inFrag
  let cout := s.currentOutputTranscription ++ m.outFrag
  let flushIn := m.turnCompleteB ∧ jsTrim cin ≠ []
  let flushOut := m.turnCompleteB ∧ jsTrim cout ≠ []
  ({ s with
      currentInputTranscription := if flushIn then [] else cin,
      currentOutputTranscription := if flushOut then [] else cout },
   (if flushIn then [Event.transcript cin Role.user] else [])
     ++ (if flushOut then [Event.transcript cout Role.model] else []))

/-- Audio payload scheduling (liveApi.ts lines 335–356): when a (truthy)
base64 chunk arrives and the output context and node exist, status moves
to `speaking` (unless already), the start time is the later of the
previously scheduled end and the output clock's current time `now`, the
chunk is decoded (duration = sample count / 24000) and started there, and
the next-start offset advances by the duration. -/
def hmAudioPhase (s : LiveState) (now : ℚ) (m : LiveServerMessage) :
    LiveState × List Event :=
  if m.audioB64 ≠ [] ∧ s.outputAudioContext.isSome ∧ s.outputNode then
    let p := if s.currentStatus ≠ AgentStatus.speaking then
               applySetStatus s AgentStatus.speaking
             else (s, [])
    let start := max p.1.nextStartTime now
    let dur : ℚ := ((b64decode m.audioB64).length / 2 : Nat) / 24000
    ({ p.1 with
        nextStartTime := start + dur,
        sources := p.1.sources ++ [⟨start, dur⟩] },
     p.2 ++ [Event.playStarted start dur])
  else (s, [])

/-- Interruption handling (liveApi.ts lines 358–367): stop and clear every
active segment, reset the next-start offset, status → `listening` (through
`setStatus`, so subject to the error latch), reset the voice-activity
bookkeeping, drop the output-transcript accumulator. -/
def hmInterruptPhase (s : LiveState) (m : LiveServerMessage) :
    LiveState × List Event :=
  if m.interruptedB then
    let p := applySetStatus { s with sources := [], nextStartTime := 0 }
               AgentStatus.listening
    ({ p.1 with
        lastUserInteraction := 0,
        hasSpokenOnce := false,
        currentOutputTranscription := [] },
     p.2)
  else (s, [])

/-- `handleMessage` (liveApi.ts line 297): tool calls, transcript
accumulation and flush, audio scheduling, interruption — in that order.
`now` is `outputAudioContext.currentTime` when the message is handled. -/
def handleMessage (s : LiveState) (now : ℚ) (m : LiveServerMessage) :
    LiveState × List Event :=
  let tEvs := hmToolEvents s m
  let p1 := hmTranscriptPhase s m
  let p2 := hmAudioPhase p1.1 now m
  let p3 := hmInterruptPhase p2.1 m
  (p3.1, tEvs ++ (p1.2 ++ (p2.2 ++ p3.2)))

/-- Handling a sequence of (clock, message) pairs in arrival order. -/
def runMessages (s : LiveState) :
    List (ℚ × LiveServerMessage) → LiveState × List Event
  | [] => (s, [])
  | (now, m) :: rest =>
      let r := handleMessage s now m
      let r2 := runMessages r.1 rest
      (r2.1, r.2 ++ r2.2)

/-! ## C8: tool-call forwarding and acknowledgement -/

/-- The argument objects handed to the lead-update callback, in order. -/
def leadUpdateEvents (evs : List Event) : List (List (String × String)) :=
  evs.filterMap fun e =>
    match e with
    | Event.leadUpdate args => some args
    | _ => none

/-- The (id, name) tags of the tool-responses sent, in order. -/
def toolResponseEvents (evs : List Event) : List (String × String) :=
  evs.filterMap fun e =>
    match e with
    | Event.toolResponse i n => some (i, n)
    | _ => none

lemma hmTranscriptPhase_shape (s : LiveState) (m : LiveServerMessage) :
    ∀ e ∈ (hmTranscriptPhase s m).2, ∃ t r, e = Event.transcript t r := by
  intro e he
  simp only [hmTranscriptPhase, List.mem_append] at he
  rcases he with h | h <;> (split at h <;> simp_all)

lemma applySetStatus_shape (s : LiveState) (target : AgentStatus) :
    ∀ e ∈ (applySetStatus s target).2, ∃ st, e = Event.statusChanged st := by
  intro e he
  simp only [applySetStatus] at he
  split at he <;> simp_all

lemma hmAudioPhase_shape (s : LiveState) (now : ℚ) (m : LiveServerMessage) :
    ∀ e ∈ (hmAudioPhase s now m).2,
      (∃ st, e = Event.statusChanged st) ∨ ∃ a d, e = Event.playStarted a d := by
  intro e he
  unfold hmAudioPhase at he
  split at he
  · simp only [List.mem_append] at he
    rcases he with h | h
    · split at h
      · exact Or.inl (applySetStatus_shape _ _ e h)
      · simp at h
    · simp at h
      exact Or.inr ⟨_, _, h⟩
  · simp at he

lemma hmInterruptPhase_shape (s : LiveState) (m : LiveServerMessage) :
    ∀ e ∈ (hmInterruptPhase s m).2, ∃ st, e = Event.statusChanged st := by
  intro e he
  unfold hmInterruptPhase at he
  split at he
  · exact applySetStatus_shape _ _ e he
  · simp at he

lemma leadUpdateEvents_eq_nil (evs : List Event)
    (h : ∀ e ∈ evs, (∃ t r, e = Event.transcript t r)
        ∨ (∃ st, e = Event.statusChanged st)
        ∨ ∃ a d, e = Event.playStarted a d) :
    leadUpdateEvents evs = [] ∧ toolResponseEvents evs = [] := by
  unfold leadUpdateEvents toolResponseEvents
  constructor <;>
    (rw [List.filterMap_eq_nil_iff]
     intro e he
     rcases h e he with ⟨t, r, rfl⟩ | ⟨st, rfl⟩ | ⟨a, d, rfl⟩ <;> rfl)

lemma leadUpdateEvents_append (a b : List Event) :
    leadUpdateEvents (a ++ b) = leadUpdateEvents a ++ leadUpdateEvents b :=
  List.filterMap_append a b _

lemma toolResponseEvents_append (a b : List Event) :
    toolResponseEvents (a ++ b) = toolResponseEvents a ++ toolResponseEvents b :=
  List.filterMap_append a b _

/-- Both extractions over `handleMessage` see only the tool-phase events. -/
lemma toolEvents_of_handleMessage (s : LiveState) (now : ℚ)
    (m : LiveServerMessage) :
    leadUpdateEvents (handleMessage s now m).2
        = leadUpdateEvents (hmToolEvents s m)
    ∧ toolResponseEvents (handleMessage s now m).2
        = toolResponseEvents (hmToolEvents s m) := by
  have h1 := leadUpdateEvents_eq_nil (hmTranscriptPhase s m).2
    (fun e he => Or.inl (hmTranscriptPhase_shape s m e he))
  have h2 := leadUpdateEvents_eq_nil
    (hmAudioPhase (hmTranscriptPhase s m).1 now m).2
    (fun e he => Or.inr (hmAudioPhase_shape _ now m e he))
  have h3 := leadUpdateEvents_eq_nil
    (hmInterruptPhase (hmAudioPhase (hmTranscriptPhase s m).1 now m).1 m).2
    (fun e he => Or.inr (Or.inl (hmInterruptPhase_shape _ m e he)))
  simp only [handleMessage]
  constructor
  · rw [leadUpdateEvents_append, leadUpdateEvents_append, leadUpdateEvents_append,
      h1.1, h2.1, h3.1]
    simp
  · rw [toolResponseEvents_append, toolResponseEvents_append,
      toolResponseEvents_append, h1.2, h2.2, h3.2]
    simp

lemma hmToolEvents_extract (b : Bool) (fcs : List FunctionCall) :
    leadUpdateEvents (fcs.flatMap fun fc =>
        if fc.name = "update_lead" then
          Event.leadUpdate fc.args ::
            (if b then [Event.toolResponse fc.id fc.name] else [])
        else [])
      = (fcs.filter fun fc => fc.name == "update_lead").map FunctionCall.args := by
  induction fcs with
  | nil => rfl
  | cons fc fcs ih =>
      by_cases hname : fc.name = "update_lead"
      · cases b <;> simp_all [leadUpdateEvents, List.filter_cons]
      · simp_all [leadUpdateEvents, List.filter_cons]

lemma hmToolEvents_extract_resp (fcs : List FunctionCall) :
    toolResponseEvents (fcs.flatMap fun fc =>
        if fc.name = "update_lead" then
          Event.leadUpdate fc.args ::
            (if true then [Event.toolResponse fc.id fc.name] else [])
        else [])
      = (fcs.filter fun fc => fc.name == "update_lead").map
          fun fc => (fc.id, fc.name) := by
  induction fcs with
  | nil => rfl
  | cons fc fcs ih =>
      by_cases hname : fc.name = "update_lead"
      · simp_all [toolResponseEvents, List.filter_cons]
      · simp_all [toolResponseEvents, List.filter_cons]

/-- C8.  Tool-call forwarding and acknowledgement: with the session promise
present, each function call named "update_lead" in a message triggers
exactly one lead-update callback carrying that call's argument object, and
exactly one success tool-response tagged with the call's id and name, in
call order; calls with any other name trigger neither. -/
theorem C8_tool_call_forwarding (s : LiveState) (now : ℚ)
    (m : LiveServerMessage) (fcs : List FunctionCall)
    (htc : m.toolCall = some fcs) (hsess : s.sessionPromiseSome = true) :
    leadUpdateEvents (handleMessage s now m).2
        = (fcs.filter fun fc => fc.name == "update_lead").map FunctionCall.args
    ∧ toolResponseEvents (handleMessage s now m).2
        = (fcs.filter fun fc => fc.name == "update_lead").map
            fun fc => (fc.id, fc.name) := by
  obtain ⟨h1, h2⟩ := toolEvents_of_handleMessage s now m
  rw [h1, h2]
  unfold hmToolEvents
  rw [htc, hsess]
  exact ⟨hmToolEvents_extract true fcs, hmToolEvents_extract_resp fcs⟩

/-- Witness for C8: the spec scenario — one `update_lead` call with
`{phone: "0100000000"}` plus one other-named call; exactly one lead update
with those arguments and one matching tool response, nothing else. -/
theorem C8_tool_call_forwarding_witness :
    (LiveServerMessage.mk
        (some [⟨"update_lead", "call-1", [("phone", "0100000000")]⟩,
               ⟨"other_tool", "call-2", []⟩]) none).toolCall
      = some [⟨"update_lead", "call-1", [("phone", "0100000000")]⟩,
              ⟨"other_tool", "call-2", []⟩]
    ∧ ({ initState with sessionPromiseSome := true }).sessionPromiseSome = true
    ∧ leadUpdateEvents
        (handleMessage { initState with sessionPromiseSome := true } 0
          (LiveServerMessage.mk
            (some [⟨"update_lead", "call-1", [("phone", "0100000000")]⟩,
                   ⟨"other_tool", "call-2", []⟩]) none)).2
        = [[("phone", "0100000000")]]
    ∧ toolResponseEvents
        (handleMessage { initState with sessionPromiseSome := true } 0
          (LiveServerMessage.mk
            (some [⟨"update_lead", "call-1", [("phone", "0100000000")]⟩,
                   ⟨"other_tool", "call-2", []⟩]) none)).2
        = [("call-1", "update_lead")] := by
  refine ⟨rfl, rfl, ?_⟩
  have h := C8_tool_call_forwarding { initState with sessionPromiseSome := true }
    0 (LiveServerMessage.mk
        (some [⟨"update_lead", "call-1", [("phone", "0100000000")]⟩,
               ⟨"other_tool", "call-2", []⟩]) none)
    [⟨"update_lead", "call-1", [("phone", "0100000000")]⟩,
     ⟨"other_tool", "call-2", []⟩] rfl rfl
  exact ⟨h.1.trans (by decide), h.2.trans (by decide)⟩

/-! ## C5: turn-complete flush -/

/-- A message carrying only transcription fragments (input, output). -/
def fragMsg (inT outT : List Char) : LiveServerMessage :=
  ⟨none, some ⟨some outT, some inT, false, none, false⟩⟩

/-- A message carrying only the turn-complete signal. -/
def turnCompleteMsg : LiveServerMessage :=
  ⟨none, some ⟨none, none, true, none, false⟩⟩

/-- The (text, role) pairs handed to the transcript callback, in order. -/
def transcriptEvents (evs : List Event) : List (List Char × Role) :=
  evs.filterMap fun e =>
    match e with
    | Event.transcript t r => some (t, r)
    | _ => none

lemma transcriptEvents_append (a b : List Event) :
    transcriptEvents (a ++ b) = transcriptEvents a ++ transcriptEvents b :=
  List.filterMap_append a b _

/-- A pure fragment message only appends to the accumulators. -/
lemma handleMessage_fragMsg (s : LiveState) (now : ℚ) (i o : List Char) :
    handleMessage s now (fragMsg i o)
      = ({ s with
            currentInputTranscription := s.currentInputTranscription ++ i,
            currentOutputTranscription := s.currentOutputTranscription ++ o },
         []) := by
  simp [handleMessage, hmToolEvents, hmTranscriptPhase, hmAudioPhase,
    hmInterruptPhase, fragMsg, LiveServerMessage.inFrag,
    LiveServerMessage.outFrag, LiveServerMessage.turnCompleteB,
    LiveServerMessage.audioB64, LiveServerMessage.interruptedB]

/-- A run of pure fragment messages concatenates the fragments into the
accumulators and emits nothing. -/
lemma runMessages_frags (s : LiveState) :
    ∀ frags : List (List Char × List Char),
      runMessages s (frags.map fun f => ((0 : ℚ), fragMsg f.1 f.2))
        = ({ s with
              currentInputTranscription :=
                s.currentInputTranscription ++ frags.flatMap Prod.fst,
              currentOutputTranscription :=
                s.currentOutputTranscription ++ frags.flatMap Prod.snd },
           []) := by
  intro frags
  induction frags generalizing s with
  | nil => simp [runMessages]
  | cons f frags ih =>
      simp [runMessages, handleMessage_fragMsg, ih, List.append_assoc]

/-- A turn-complete message flushes each accumulator whose text trims
non-empty (input as role `user` first, then output as role `model`) and
resets exactly the flushed accumulators. -/
lemma handleMessage_turnComplete (s : LiveState) (now : ℚ) :
    handleMessage s now turnCompleteMsg
      = ({ s with
            currentInputTranscription :=
              if jsTrim s.currentInputTranscription ≠ [] then []
              else s.currentInputTranscription,
            currentOutputTranscription :=
              if jsTrim s.currentOutputTranscription ≠ [] then []
              else s.currentOutputTranscription },
         (if jsTrim s.currentInputTranscription ≠ [] then
            [Event.transcript s.currentInputTranscription Role.user] else [])
           ++ (if jsTrim s.currentOutputTranscription ≠ [] then
              [Event.transcript s.currentOutputTranscription Role.model]
            else [])) := by
  simp [handleMessage, hmToolEvents, hmTranscriptPhase, hmAudioPhase,
    hmInterruptPhase, turnCompleteMsg, LiveServerMessage.inFrag,
    LiveServerMessage.outFrag, LiveServerMessage.turnCompleteB,
    LiveServerMessage.audioB64, LiveServerMessage.interruptedB]

lemma runMessages_append (s : LiveState) (l1 l2 : List (ℚ × LiveServerMessage)) :
    runMessages s (l1 ++ l2)
      = ((runMessages (runMessages s l1).1 l2).1,
         (runMessages s l1).2 ++ (runMessages (runMessages s l1).1 l2).2) := by
  induction l1 generalizing s with
  | nil => simp [runMessages]
  | cons p l1 ih =>
      obtain ⟨now, m⟩ := p
      simp [runMessages, ih, List.append_assoc]

lemma jsTrim_nil : jsTrim [] = [] := rfl

/-- C5 (amended).  For fragments followed by a turn-complete signal (and a
second, fragment-free turn-complete signal): each accumulator whose
accumulated text is non-whitespace (trims non-empty) is flushed exactly
once — input as role `user`, output as role `model` — and reset to empty;
a whitespace-only accumulator is neither flushed nor reset; the second
turn-complete signal flushes nothing. -/
theorem C5_turn_flush_exactly_once (s : LiveState)
    (frags : List (List Char × List Char))
    (hin : s.currentInputTranscription = [])
    (hout : s.currentOutputTranscription = []) :
    transcriptEvents
        (runMessages s ((frags.map fun f => ((0 : ℚ), fragMsg f.1 f.2))
          ++ [((0 : ℚ), turnCompleteMsg), ((0 : ℚ), turnCompleteMsg)])).2
      = (if jsTrim (frags.flatMap Prod.fst) ≠ [] then
          [(frags.flatMap Prod.fst, Role.user)] else [])
        ++ (if jsTrim (frags.flatMap Prod.snd) ≠ [] then
            [(frags.flatMap Prod.snd, Role.model)] else [])
    ∧ LiveState.currentInputTranscription
        (runMessages s ((frags.map fun f => ((0 : ℚ), fragMsg f.1 f.2))
          ++ [((0 : ℚ), turnCompleteMsg), ((0 : ℚ), turnCompleteMsg)])).1
      = (if jsTrim (frags.flatMap Prod.fst) ≠ [] then []
         else frags.flatMap Prod.fst)
    ∧ LiveState.currentOutputTranscription
        (runMessages s ((frags.map fun f => ((0 : ℚ), fragMsg f.1 f.2))
          ++ [((0 : ℚ), turnCompleteMsg), ((0 : ℚ), turnCompleteMsg)])).1
      = (if jsTrim (frags.flatMap Prod.snd) ≠ [] then []
         else frags.flatMap Prod.snd) := by
  rw [runMessages_append, runMessages_frags, hin, hout]
  simp only [List.nil_append]
  rw [show ∀ a b : ℚ × LiveServerMessage, [a, b] = [a] ++ [b] from fun _ _ => rfl,
    runMessages_append]
  simp only [runMessages, handleMessage_turnComplete]
  by_cases hI : jsTrim (frags.flatMap Prod.fst) ≠ [] <;>
    by_cases hO : jsTrim (frags.flatMap Prod.snd) ≠ [] <;>
    simp_all [transcriptEvents_append, transcriptEvents, jsTrim_nil]

/-- Witness for C5 at a concrete run. -/
theorem C5_turn_flush_exactly_once_witness :
    initState.currentInputTranscription = []
    ∧ initState.currentOutputTranscription = []
    ∧ transcriptEvents
        (runMessages initState
          (([([' ', 'h', 'i'], [' '])].map fun f => ((0 : ℚ), fragMsg f.1 f.2))
            ++ [((0 : ℚ), turnCompleteMsg), ((0 : ℚ), turnCompleteMsg)])).2
      = [([' ', 'h', 'i'], Role.user)] :=
  ⟨rfl, rfl, by
    have h := (C5_turn_flush_exactly_once initState
      [([' ', 'h', 'i'], [' '])] rfl rfl).1
    rw [h]
    decide⟩

/-- Counterexample to C5 as stated: a whitespace-only input fragment makes
the input accumulator non-empty, yet the turn-complete signal flushes
nothing (no transcript callback at all) and does not reset the
accumulator — the code flushes on trimmed-non-empty, not on non-empty. -/
theorem C5_counterexample :
    ([' '] : List Char) ≠ []
    ∧ transcriptEvents
        (runMessages initState
          [((0 : ℚ), fragMsg [' '] []), ((0 : ℚ), turnCompleteMsg)]).2 = []
    ∧ LiveState.currentInputTranscription
        (runMessages initState
          [((0 : ℚ), fragMsg [' '] []), ((0 : ℚ), turnCompleteMsg)]).1
      = [' '] := by
  refine ⟨by decide, by decide, by decide⟩

/-! ## C4: interruption handling -/

/-- A message carrying only the interruption signal. -/
def interruptMsg : LiveServerMessage :=
  ⟨none, some ⟨none, none, false, none, true⟩⟩

lemma hmTranscriptPhase_status (s : LiveState) (m : LiveServerMessage) :
    (hmTranscriptPhase s m).1.currentStatus = s.currentStatus := rfl

/-- The audio phase can move the status to `speaking` but moves it into or
out of `error` never (the latch keeps `error`; otherwise the result is
`speaking` or the old status). -/
lemma hmAudioPhase_status_error (s : LiveState) (now : ℚ)
    (m : LiveServerMessage) :
    ((hmAudioPhase s now m).1.currentStatus = AgentStatus.error)
      ↔ s.currentStatus = AgentStatus.error := by
  by_cases hs : s.currentStatus = AgentStatus.error <;>
    simp [hmAudioPhase, applySetStatus, setStatusFn, hs] <;>
    split <;>
    simp_all <;>
    split <;>
    simp_all

/-- C4 (amended).  After a message carrying the interruption signal: the
active-playback set is empty, the next-start offset is zero, the
voice-activity bookkeeping is reset, and the output-transcript accumulator
is discarded — a later turn-complete signal flushes no model-role
transcript.  The status becomes `listening` unless the controller was
already in `error`, in which case the error latch inside `setStatus` keeps
it `error`. -/
theorem C4_interruption_clears (s : LiveState) (now now2 : ℚ)
    (m : LiveServerMessage) (hint : m.interruptedB = true) :
    (handleMessage s now m).1.sources = []
    ∧ (handleMessage s now m).1.nextStartTime = 0
    ∧ (handleMessage s now m).1.currentOutputTranscription = []
    ∧ (handleMessage s now m).1.lastUserInteraction = 0
    ∧ (handleMessage s now m).1.hasSpokenOnce = false
    ∧ (handleMessage s now m).1.currentStatus
        = (if s.currentStatus = AgentStatus.error then AgentStatus.error
           else AgentStatus.listening)
    ∧ (∀ t, (t, Role.model) ∉ transcriptEvents
          (handleMessage (handleMessage s now m).1 now2 turnCompleteMsg).2) := by
  have hst : ((hmAudioPhase (hmTranscriptPhase s m).1 now m).1.currentStatus
      = AgentStatus.error) ↔ s.currentStatus = AgentStatus.error := by
    rw [hmAudioPhase_status_error, hmTranscriptPhase_status]
  have hmain : (handleMessage s now m).1
      = { (hmAudioPhase (hmTranscriptPhase s m).1 now m).1 with
            sources := [],
            nextStartTime := 0,
            currentStatus :=
              if (hmAudioPhase (hmTranscriptPhase s m).1 now m).1.currentStatus
                  = AgentStatus.error then AgentStatus.error
              else AgentStatus.listening,
            lastUserInteraction := 0,
            hasSpokenOnce := false,
            currentOutputTranscription := [] } := by
    simp only [handleMessage, hmInterruptPhase, hint, if_pos,
      applySetStatus, setStatusFn]
    by_cases he : (hmAudioPhase (hmTranscriptPhase s m).1 now m).1.currentStatus
        = AgentStatus.error <;> simp [he]
  rw [hmain]
  refine ⟨rfl, rfl, rfl, rfl, rfl, ?_, ?_⟩
  · by_cases he : s.currentStatus = AgentStatus.error <;>
      simp [he, hst.mpr, hst.not.mpr] <;> simp_all
  · intro t
    rw [handleMessage_turnComplete]
    simp only [transcriptEvents_append, transcriptEvents, jsTrim_nil]
    split <;> simp

/-- Witness for C4 at a concrete non-error state with a pending chunk and
a partial output transcript. -/
theorem C4_interruption_clears_witness :
    interruptMsg.interruptedB = true
    ∧ (handleMessage
          { initState with
              currentStatus := AgentStatus.speaking,
              sources := [⟨2, 1⟩],
              nextStartTime := 3,
              currentOutputTranscription := ['h', 'i'],
              hasSpokenOnce := true } 0 interruptMsg).1.sources = []
    ∧ (handleMessage
          { initState with
              currentStatus := AgentStatus.speaking,
              sources := [⟨2, 1⟩],
              nextStartTime := 3,
              currentOutputTranscription := ['h', 'i'],
              hasSpokenOnce := true } 0 interruptMsg).1.currentStatus
        = AgentStatus.listening := by
  have h := C4_interruption_clears
    { initState with
        currentStatus := AgentStatus.speaking,
        sources := [⟨2, 1⟩],
        nextStartTime := 3,
        currentOutputTranscription := ['h', 'i'],
        hasSpokenOnce := true } 0 0 interruptMsg rfl
  exact ⟨rfl, h.1, h.2.2.2.2.2.1.trans (by decide)⟩

/-- Counterexample to C4 as stated: from status `error`, the interruption
signal's `setStatus('listening')` is swallowed by the error latch, so the
status after the interrupt message is `error`, not `listening`. -/
theorem C4_counterexample :
    (handleMessage { initState with currentStatus := AgentStatus.error } 0
        interruptMsg).1.currentStatus = AgentStatus.error
    ∧ (handleMessage { initState with currentStatus := AgentStatus.error } 0
        interruptMsg).1.currentStatus ≠ AgentStatus.listening := by
  refine ⟨by decide, by decide⟩

/-! ## C1: gapless playback scheduling -/

/-- A message carrying only a base64 audio chunk. -/
def audioMsg (b64 : List Nat) : LiveServerMessage :=
  ⟨none, some ⟨none, none, false, some b64, false⟩⟩

/-- The (start, duration) pairs of the playback segments started, in
order. -/
def playEvents (evs : List Event) : List (ℚ × ℚ) :=
  evs.filterMap fun e =>
    match e with
    | Event.playStarted st d => some (st, d)
    | _ => none

lemma playEvents_append (a b : List Event) :
    playEvents (a ++ b) = playEvents a ++ playEvents b :=
  List.filterMap_append a b _

/-- Duration of a decoded chunk: sample count (byte pairs) over the 24 kHz
output rate. -/
def durB (b : List Nat) : ℚ := ((b64decode b).length / 2 : Nat) / 24000

/-- Handling a sequence of audio chunks, each with the output clock's
current time at its arrival. -/
def runAudio (s : LiveState) (chunks : List (ℚ × List Nat)) :
    LiveState × List Event :=
  runMessages s (chunks.map fun c => (c.1, audioMsg c.2))

/-- One audio chunk schedules exactly one segment at
`max nextStartTime now` and advances `nextStartTime` by its duration. -/
lemma handleMessage_audioMsg (s : LiveState) (now : ℚ) (b : List Nat)
    (hb : b ≠ []) (hctx : s.outputAudioContext.isSome = true)
    (hnode : s.outputNode = true) :
    playEvents (handleMessage s now (audioMsg b)).2
        = [(max s.nextStartTime now, durB b)]
    ∧ (handleMessage s now (audioMsg b)).1.nextStartTime
        = max s.nextStartTime now + durB b
    ∧ (handleMessage s now (audioMsg b)).1.outputAudioContext
        = s.outputAudioContext
    ∧ (handleMessage s now (audioMsg b)).1.outputNode = s.outputNode := by
  by_cases hsp : s.currentStatus = AgentStatus.speaking <;>
    simp [handleMessage, hmToolEvents, hmTranscriptPhase, hmAudioPhase,
      hmInterruptPhase, applySetStatus, setStatusFn, audioMsg, durB,
      LiveServerMessage.inFrag, LiveServerMessage.outFrag,
      LiveServerMessage.turnCompleteB, LiveServerMessage.audioB64,
      LiveServerMessage.interruptedB, playEvents, hb, hctx, hnode, hsp] <;>
    split <;>
    simp [playEvents]

/-- Invariant run of `runAudio`: the started segments are gapless
(`Chain'`), none starts before its arrival clock (`Forall₂`), and none
starts before the initial next-start offset. -/
lemma runAudio_gapless (chunks : List (ℚ × List Nat)) :
    ∀ s : LiveState, (∀ c ∈ chunks, c.2 ≠ []) →
      s.outputAudioContext.isSome = true → s.outputNode = true →
      List.Chain' (fun a b : ℚ × ℚ => a.1 + a.2 ≤ b.1)
          (playEvents (runAudio s chunks).2)
      ∧ List.Forall₂ (fun (c : ℚ × List Nat) (p : ℚ × ℚ) => c.1 ≤ p.1)
          chunks (playEvents (runAudio s chunks).2)
      ∧ ∀ p ∈ (playEvents (runAudio s chunks).2).head?,
          s.nextStartTime ≤ p.1 := by
  induction chunks with
  | nil =>
      intro s _ _ _
      exact ⟨List.chain'_nil, List.Forall₂.nil, by
        simp [runAudio, runMessages, playEvents]⟩
  | cons c rest ih =>
      intro s h hc hn
      obtain ⟨now, b⟩ := c
      have hb : b ≠ [] := h (now, b) (by simp)
      have hstep := handleMessage_audioMsg s now b hb hc hn
      have hrun : runAudio s ((now, b) :: rest)
          = ((runAudio (handleMessage s now (audioMsg b)).1 rest).1,
             (handleMessage s now (audioMsg b)).2
               ++ (runAudio (handleMessage s now (audioMsg b)).1 rest).2) := by
        simp [runAudio, runMessages]
      have ihr := ih (handleMessage s now (audioMsg b)).1
        (fun c hcm => h c (by simp [hcm]))
        (by rw [hstep.2.2.1]; exact hc)
        (by rw [hstep.2.2.2]; exact hn)
      rw [hrun]
      simp only [playEvents_append, hstep.1, List.cons_append, List.nil_append]
      refine ⟨?_, ?_, ?_⟩
      · rw [List.chain'_cons']
        refine ⟨fun y hy => ?_, ihr.1⟩
        have := ihr.2.2 y hy
        rw [hstep.2.1] at this
        simpa using this
      · exact List.Forall₂.cons (le_max_right _ _) ihr.2.1
      · intro p hp
        simp only [List.head?_cons, Option.mem_def, Option.some.injEq] at hp
        subst hp
        exact le_max_left _ _

/-- C1.  Gapless playback scheduling: over any sequence of inbound audio
chunks (each with the output clock's time at its scheduling), segment
k+1 starts no earlier than segment k's start plus segment k's duration
(`Chain'`), and every segment starts no earlier than the clock time at
which it was scheduled (`Forall₂`; which also says exactly one segment is
started per chunk). -/
theorem C1_gapless_playback (s : LiveState) (chunks : List (ℚ × List Nat))
    (hb : ∀ c ∈ chunks, c.2 ≠ [])
    (hctx : s.outputAudioContext.isSome = true)
    (hnode : s.outputNode = true) :
    List.Chain' (fun a b : ℚ × ℚ => a.1 + a.2 ≤ b.1)
        (playEvents (runAudio s chunks).2)
    ∧ List.Forall₂ (fun (c : ℚ × List Nat) (p : ℚ × ℚ) => c.1 ≤ p.1)
        chunks (playEvents (runAudio s chunks).2) :=
  ⟨(runAudio_gapless chunks s hb hctx hnode).1,
   (runAudio_gapless chunks s hb hctx hnode).2.1⟩

/-- Witness for C1: two chunks arriving out of clock order. -/
theorem C1_gapless_playback_witness :
    (∀ c ∈ [((5 : ℚ), [65, 65, 65, 61]), ((0 : ℚ), [65, 65, 65, 61])],
        c.2 ≠ ([] : List Nat))
    ∧ ({ initState with
          outputAudioContext := some CtxState.running,
          outputNode := true } : LiveState).outputAudioContext.isSome = true
    ∧ (List.Chain' (fun a b : ℚ × ℚ => a.1 + a.2 ≤ b.1)
        (playEvents (runAudio
          { initState with
              outputAudioContext := some CtxState.running,
              outputNode := true }
          [((5 : ℚ), [65, 65, 65, 61]), ((0 : ℚ), [65, 65, 65, 61])]).2)
      ∧ List.Forall₂ (fun (c : ℚ × List Nat) (p : ℚ × ℚ) => c.1 ≤ p.1)
          [((5 : ℚ), [65, 65, 65, 61]), ((0 : ℚ), [65, 65, 65, 61])]
          (playEvents (runAudio
            { initState with
                outputAudioContext := some CtxState.running,
                outputNode := true }
            [((5 : ℚ), [65, 65, 65, 61]), ((0 : ℚ), [65, 65, 65, 61])]).2)) :=
  ⟨by decide, rfl,
   C1_gapless_playback
     { initState with
         outputAudioContext := some CtxState.running, outputNode := true }
     [((5 : ℚ), [65, 65, 65, 61]), ((0 : ℚ), [65, 65, 65, 61])]
     (by decide) rfl rfl⟩

/-! ## Teardown (`disconnect`, liveApi.ts lines 370–442)

`disconnect` is a straight-line sequence of conditional teardown steps.
Its trace records the external actions in program order: (1) close the
session (when the promise is present and resolves — a rejected promise is
caught and yields no session to close); (2) stop the non-inactive recorder
and hand the assembled blob to the recording-complete callback when it is
non-empty; (3) clear the volume-sampling timer; (4) stop the microphone
tracks; (5) disconnect the capture node; (6) close the two audio contexts
when not already closed (close failures are caught and logged: the two
`Bool` arguments say whether each close fails, and the result does not
depend on them); (7) stop every active playback segment; (8) `setStatus
('idle')`. -/

/-- External actions of `disconnect`, in program order. -/
inductive TAction
  | closeSession
  | recorderStop
  | recordingComplete (size : Nat)   -- onAudioRecord(blob), blob.size = size
  | clearVolumeInterval
  | stopStreamTracks
  | disconnectInputNode
  | closeInputCtx
  | closeOutputCtx
  | stopSource (seg : Segment)
  | statusChange (st : AgentStatus)  -- onStatusChange via setStatus
deriving DecidableEq, Repr

/-- The teardown step (1–8 of the spec's ordering) an action belongs to. -/
def stepIndex : TAction → Nat
  | TAction.closeSession => 1
  | TAction.recorderStop => 2
  | TAction.recordingComplete _ => 2
  | TAction.clearVolumeInterval => 3
  | TAction.stopStreamTracks => 4
  | TAction.disconnectInputNode => 5
  | TAction.closeInputCtx => 6
  | TAction.closeOutputCtx => 6
  | TAction.stopSource _ => 7
  | TAction.statusChange _ => 8

/-- The action trace of `disconnect`, following the source line by line. -/
def disconnectTrace (s : LiveState) : List TAction :=
  (if s.sessionPromiseSome ∧ s.sessionResolves then [TAction.closeSession]
   else []) ++
  ((if s.mediaRecorder = some true then
      TAction.recorderStop ::
        (if 0 < s.audioChunks.sum then
          [TAction.recordingComplete s.audioChunks.sum] else [])
    else []) ++
  ((if s.outputVolumeInterval then [TAction.clearVolumeInterval] else []) ++
  ((if s.stream then [TAction.stopStreamTracks] else []) ++
  ((if s.inputNode then [TAction.disconnectInputNode] else []) ++
  ((if s.inputAudioContext.isSome
        ∧ s.inputAudioContext ≠ some CtxState.closed then
      [TAction.closeInputCtx] else []) ++
  ((if s.outputAudioContext.isSome
        ∧ s.outputAudioContext ≠ some CtxState.closed then
      [TAction.closeOutputCtx] else []) ++
  (s.sources.map TAction.stopSource ++
   [TAction.statusChange AgentStatus.idle])))))))

/-- The state `disconnect` leaves behind: resources nulled, recorder
inactive, sources cleared, status set through `setStatus('idle')`. -/
def disconnectState (s : LiveState) : LiveState :=
  { s with
      sessionPromiseSome := false
      sessionResolves := false
      mediaRecorder := s.mediaRecorder.map fun _ => false
      outputVolumeInterval := false
      stream := false
      inputNode := false
      inputAudioContext := none
      outputAudioContext := none
      sources := []
      currentStatus := (setStatusFn s.currentStatus AgentStatus.idle).1 }

/-- `disconnect` (liveApi.ts line 370).  The two flags say whether closing
the input / output audio context fails; both failures are caught, so they
influence neither the resulting state nor the trace. -/
def disconnect (s : LiveState) (_inCloseFails _outCloseFails : Bool) :
    LiveState × List TAction :=
  (disconnectState s, disconnectTrace s)

/-- A teardown trace sorted by spec step. -/
def SortedTrace (tr : List TAction) : Prop :=
  List.Pairwise (fun a b => stepIndex a ≤ stepIndex b) tr

lemma pairwise_of_all {R : TAction → TAction → Prop} :
    ∀ l : List TAction, (∀ a ∈ l, ∀ b ∈ l, R a b) → l.Pairwise R := by
  intro l
  induction l with
  | nil => intro _; exact List.Pairwise.nil
  | cons a l ih =>
      intro h
      exact List.Pairwise.cons
        (fun b hb => h a (by simp) b (by simp [hb]))
        (ih fun x hx y hy => h x (by simp [hx]) y (by simp [hy]))

/-- Gluing: a block of constant step `k` in front of a sorted trace whose
steps are all ≥ `j ≥ k` stays sorted, with all steps ≥ `k`. -/
lemma sortedTrace_glue (k j : Nat) (l1 l2 : List TAction) (hkj : k ≤ j)
    (h1 : ∀ a ∈ l1, stepIndex a = k)
    (h2 : SortedTrace l2) (h3 : ∀ a ∈ l2, j ≤ stepIndex a) :
    SortedTrace (l1 ++ l2) ∧ ∀ a ∈ l1 ++ l2, k ≤ stepIndex a := by
  constructor
  · rw [SortedTrace, List.pairwise_append]
    refine ⟨pairwise_of_all l1 fun a ha b hb => ?_, h2, fun a ha b hb => ?_⟩
    · rw [h1 a ha, h1 b hb]
    · rw [h1 a ha]
      exact hkj.trans (h3 b hb)
  · intro a ha
    rcases List.mem_append.mp ha with h | h
    · exact (h1 a h).ge
    · exact hkj.trans (h3 a h)

lemma mem_ite_singleton {c : Prop} [Decidable c] {x a : TAction}
    (h : a ∈ (if c then [x] else [])) : a = x := by
  split at h
  · simpa using h
  · simp at h

lemma disconnectTrace_sorted (s : LiveState) :
    SortedTrace (disconnectTrace s)
      ∧ ∀ a ∈ disconnectTrace s, 1 ≤ stepIndex a := by
  have t8 : SortedTrace [TAction.statusChange AgentStatus.idle]
      ∧ ∀ a ∈ [TAction.statusChange AgentStatus.idle], 8 ≤ stepIndex a := by
    constructor
    · exact List.pairwise_singleton _ _
    · intro a ha
      simp only [List.mem_singleton] at ha
      subst ha
      rfl
  have t7 := sortedTrace_glue 7 8
    (s.sources.map TAction.stopSource) _ (by omega)
    (fun a ha => by
      obtain ⟨seg, _, rfl⟩ := List.mem_map.mp ha
      rfl)
    t8.1 t8.2
  have t6b := sortedTrace_glue 6 7
    (if s.outputAudioContext.isSome
        ∧ s.outputAudioContext ≠ some CtxState.closed then
      [TAction.closeOutputCtx] else []) _ (by omega)
    (fun a ha => by rw [mem_ite_singleton ha]; rfl)
    t7.1 t7.2
  have t6a := sortedTrace_glue 6 6
    (if s.inputAudioContext.isSome
        ∧ s.inputAudioContext ≠ some CtxState.closed then
      [TAction.closeInputCtx] else []) _ (by omega)
    (fun a ha => by rw [mem_ite_singleton ha]; rfl)
    t6b.1 t6b.2
  have t5 := sortedTrace_glue 5 6
    (if s.inputNode then [TAction.disconnectInputNode] else []) _ (by omega)
    (fun a ha => by rw [mem_ite_singleton ha]; rfl)
    t6a.1 t6a.2
  have t4 := sortedTrace_glue 4 5
    (if s.stream then [TAction.stopStreamTracks] else []) _ (by omega)
    (fun a ha => by rw [mem_ite_singleton ha]; rfl)
    t5.1 t5.2
  have t3 := sortedTrace_glue 3 4
    (if s.outputVolumeInterval then [TAction.clearVolumeInterval] else []) _
    (by omega)
    (fun a ha => by rw [mem_ite_singleton ha]; rfl)
    t4.1 t4.2
  have t2 := sortedTrace_glue 2 3
    (if s.mediaRecorder = some true then
        TAction.recorderStop ::
          (if 0 < s.audioChunks.sum then
            [TAction.recordingComplete s.audioChunks.sum] else [])
      else []) _ (by omega)
    (fun a ha => by
      split at ha
      · rcases List.mem_cons.mp ha with rfl | ha2
        · rfl
        · rw [mem_ite_singleton ha2]; rfl
      · simp at ha)
    t3.1 t3.2
  have t1 := sortedTrace_glue 1 2
    (if s.sessionPromiseSome ∧ s.sessionResolves then
        [TAction.closeSession] else []) _ (by omega)
    (fun a ha => by rw [mem_ite_singleton ha]; rfl)
    t2.1 t2.2
  exact t1

lemma setStatusFn_idle (c : AgentStatus) :
    setStatusFn c AgentStatus.idle = (AgentStatus.idle, true) := by
  cases c <;> rfl

lemma disconnectTrace_getLast (s : LiveState) :
    (disconnectTrace s).getLast?
      = some (TAction.statusChange AgentStatus.idle) := by
  unfold disconnectTrace
  simp only [← List.append_assoc]
  rw [List.getLast?_concat]

/-- C6.  Teardown order of disconnect(): for every controller state (and
whether or not the audio-context closes fail), the emitted actions are
ordered by the spec's steps (1) close session … (8) status `idle`:
the trace is sorted by step index, ends with the status change to `idle`
(so the recording blob is handed over before every later step), the final
status is `idle`, a non-empty recording of an active recorder is handed to
the recording-complete callback, and close failures change nothing. -/
theorem C6_teardown_order (s : LiveState) (f1 f2 : Bool) :
    SortedTrace (disconnect s f1 f2).2
    ∧ (disconnect s f1 f2).2.getLast?
        = some (TAction.statusChange AgentStatus.idle)
    ∧ (disconnect s f1 f2).1.currentStatus = AgentStatus.idle
    ∧ (s.mediaRecorder = some true → 0 < s.audioChunks.sum →
        TAction.recordingComplete s.audioChunks.sum ∈ (disconnect s f1 f2).2)
    ∧ disconnect s f1 f2 = disconnect s true true := by
  refine ⟨(disconnectTrace_sorted s).1, disconnectTrace_getLast s, ?_, ?_, rfl⟩
  · simp [disconnect, disconnectState, setStatusFn_idle]
  · intro h1 h2
    simp [disconnect, disconnectTrace, h1, h2]

/-- Witness for C6: a state with an active recorder and one recorded
chunk; its teardown emits the recording-complete callback. -/
theorem C6_teardown_order_witness :
    ({ initState with mediaRecorder := some true, audioChunks := [5] }
        : LiveState).mediaRecorder = some true
    ∧ 0 < ({ initState with mediaRecorder := some true, audioChunks := [5] }
        : LiveState).audioChunks.sum
    ∧ TAction.recordingComplete
        ({ initState with mediaRecorder := some true, audioChunks := [5] }
          : LiveState).audioChunks.sum
        ∈ (disconnect
            { initState with mediaRecorder := some true, audioChunks := [5] }
            false false).2 :=
  ⟨rfl, by decide,
   (C6_teardown_order
       { initState with mediaRecorder := some true, audioChunks := [5] }
       false false).2.2.2.1 rfl (by decide)⟩

/-- C7.  Idempotent teardown: disconnect() after disconnect() — from any
state, with any close-failure outcomes — still ends with status `idle`
(`disconnect` is a total function of the state: it throws nothing); and on
a never-connected controller (all resources null) it performs nothing but
the status change to `idle`. -/
theorem C7_idempotent_teardown (s : LiveState) (f1 f2 g1 g2 : Bool) :
    (disconnect (disconnect s f1 f2).1 g1 g2).1.currentStatus
        = AgentStatus.idle
    ∧ (disconnect (disconnect s f1 f2).1 g1 g2).2.getLast?
        = some (TAction.statusChange AgentStatus.idle)
    ∧ (disconnect initState f1 f2).1.currentStatus = AgentStatus.idle
    ∧ (disconnect initState f1 f2).2
        = [TAction.statusChange AgentStatus.idle] := by
  refine ⟨?_, ?_, ?_, ?_⟩
  · simp [disconnect, disconnectState, setStatusFn_idle]
  · exact disconnectTrace_getLast (disconnect s f1 f2).1
  · simp [disconnect, disconnectState, setStatusFn_idle]
  · rfl

end NovaCore
